import Mathlib

/-!
Verification of the ufwv2ktracker persistent-storage subsystem.

This file shallowly embeds the parts of the repository that the
specification's claims are about:

* `src/firmware/main.py` — the forensic logger: hash-chained CSV log
  (`get_hash`, `get_last_line`, the append/flush logic of `run_logger`).
* `src/analysis/analysis.py` — the offline verifier
  (`verify_hash_chain`).
* `src/firmware/lib/sdcard.py` — the SPI SD-card driver
  (`init_card`, `_cmd`, `_write`, `_wait_ready`, `readblocks`,
  `writeblocks`).

Machine integers are modelled as `Nat`/`Int` with explicit masking where
the Python code masks; Python floats are modelled as sign-magnitude exact
rationals; fallible operations return `Option`/`Except`.
-/

/-! ### SHA-256 over byte lists

`main.py` calls `uhashlib.sha256(data_string.encode('utf-8'))` and
`analysis.py` calls `hashlib.sha256(...).hexdigest()`.  Both are the
standard SHA-256; we embed it executably over `List Nat` bytes (each
`< 256`), with 32-bit words as `Nat` reduced `% 4294967296`.
-/

def w32 : Nat := 4294967296

/-- Rotate a 32-bit word right by `n` bits. -/
def rotr (n w : Nat) : Nat := ((w >>> n) ||| (w <<< (32 - n))) % w32

/-- SHA-256 small sigma 0. -/
def ssig0 (w : Nat) : Nat := (rotr 7 w) ^^^ (rotr 18 w) ^^^ (w >>> 3)

/-- SHA-256 small sigma 1. -/
def ssig1 (w : Nat) : Nat := (rotr 17 w) ^^^ (rotr 19 w) ^^^ (w >>> 10)

/-- SHA-256 big sigma 0. -/
def bsig0 (w : Nat) : Nat := (rotr 2 w) ^^^ (rotr 13 w) ^^^ (rotr 22 w)

/-- SHA-256 big sigma 1. -/
def bsig1 (w : Nat) : Nat := (rotr 6 w) ^^^ (rotr 11 w) ^^^ (rotr 25 w)

/-- SHA-256 round constants (fractional cube roots of the first 64 primes). -/
def sha256K : List Nat :=
  [1116352408, 1899447441, 3049323471, 3921009573, 961987163, 1508970993,
   2453635748, 2870763221, 3624381080, 310598401, 607225278, 1426881987,
   1925078388, 2162078206, 2614888103, 3248222580, 3835390401, 4022224774,
   264347078, 604807628, 770255983, 1249150122, 1555081692, 1996064986,
   2554220882, 2821834349, 2952996808, 3210313671, 3336571891, 3584528711,
   113926993, 338241895, 666307205, 773529912, 1294757372, 1396182291,
   1695183700, 1986661051, 2177026350, 2456956037, 2730485921, 2820302411,
   3259730800, 3345764771, 3516065817, 3600352804, 4094571909, 275423344,
   430227734, 506948616, 659060556, 883997877, 958139571, 1322822218,
   1537002063, 1747873779, 1955562222, 2024104815, 2227730452, 2361852424,
   2428436474, 2756734187, 3204031479, 3329325298]

/-- SHA-256 initial hash state (fractional square roots of the first 8 primes). -/
structure Hash8 where
  a : Nat
  b : Nat
  c : Nat
  d : Nat
  e : Nat
  f : Nat
  g : Nat
  h : Nat

def sha256H0 : Hash8 :=
  ⟨1779033703, 3144134277, 1013904242, 2773480762,
   1359893119, 2600822924, 528734635, 1541459225⟩

/-- Extend the (reversed) message schedule by `n` further words. -/
def shaExtend : Nat → List Nat → List Nat
  | 0, ws => ws
  | n + 1, ws =>
      let gw := fun i => (ws.get? i).getD 0
      let w := (ssig1 (gw 1) + gw 6 + ssig0 (gw 14) + gw 15) % w32
      shaExtend n (w :: ws)

/-- One SHA-256 round, consuming one `(K, W)` pair. -/
def shaRound (s : Hash8) (kw : Nat × Nat) : Hash8 :=
  let ch := ((s.e &&& s.f) ^^^ ((w32 - 1 - s.e) &&& s.g))
  let t1 := (s.h + bsig1 s.e + ch + kw.1 + kw.2) % w32
  let maj := (s.a &&& s.b) ^^^ (s.a &&& s.c) ^^^ (s.b &&& s.c)
  let t2 := (bsig0 s.a + maj) % w32
  ⟨(t1 + t2) % w32, s.a, s.b, s.c, (s.d + t1) % w32, s.e, s.f, s.g⟩

/-- Pack four big-endian bytes into one 32-bit word. -/
def word4 : List Nat → Nat
  | b0 :: b1 :: b2 :: b3 :: _ => ((b0 <<< 24) + (b1 <<< 16) + (b2 <<< 8) + b3) % w32
  | _ => 0

/-- Split a 64-byte block into its 16 big-endian words. -/
def blockWords (blk : List Nat) : List Nat :=
  (List.range 16).map (fun i => word4 (blk.drop (4 * i)))

/-- Process one 64-byte block. -/
def shaBlock (s : Hash8) (blk : List Nat) : Hash8 :=
  let w := (shaExtend 48 (blockWords blk).reverse).reverse
  let t := (sha256K.zip w).foldl shaRound s
  ⟨(s.a + t.a) % w32, (s.b + t.b) % w32, (s.c + t.c) % w32, (s.d + t.d) % w32,
   (s.e + t.e) % w32, (s.f + t.f) % w32, (s.g + t.g) % w32, (s.h + t.h) % w32⟩

/-- Split a byte list into 64-byte chunks (`fuel` bounds the recursion). -/
def chunks64 : Nat → List Nat → List (List Nat)
  | 0, _ => []
  | _, [] => []
  | fuel + 1, l => l.take 64 :: chunks64 fuel (l.drop 64)

/-- SHA-256 padding: append `0x80`, zeros, and the 64-bit big-endian bit length. -/
def shaPad (msg : List Nat) : List Nat :=
  let len := msg.length
  let zeros := (119 - len % 64) % 64
  let bitLen := 8 * len
  msg ++ 128 :: List.replicate zeros 0 ++
    (List.range 8).map (fun i => (bitLen >>> (8 * (7 - i))) &&& 255)

/-- The SHA-256 digest of a byte list, as eight 32-bit words. -/
def sha256Words (msg : List Nat) : List Nat :=
  let padded := shaPad msg
  let s := (chunks64 (padded.length + 1) padded).foldl shaBlock sha256H0
  [s.a, s.b, s.c, s.d, s.e, s.f, s.g, s.h]

/-- Lowercase hexadecimal digit for a nibble. -/
def hexChar (n : Nat) : Char :=
  match n with
  | 0 => '0' | 1 => '1' | 2 => '2' | 3 => '3' | 4 => '4' | 5 => '5'
  | 6 => '6' | 7 => '7' | 8 => '8' | 9 => '9' | 10 => 'a' | 11 => 'b'
  | 12 => 'c' | 13 => 'd' | 14 => 'e' | _ => 'f'

/-- Render a 32-bit word as eight lowercase hex characters. -/
def wordHex (w : Nat) : List Char :=
  (List.range 8).map (fun i => hexChar ((w >>> (4 * (7 - i))) &&& 15))

/-- UTF-8 encoding of one character. -/
def utf8Char (c : Char) : List Nat :=
  let n := c.toNat
  if n < 128 then [n]
  else if n < 2048 then [192 ||| (n >>> 6), 128 ||| (n &&& 63)]
  else if n < 65536 then
    [224 ||| (n >>> 12), 128 ||| ((n >>> 6) &&& 63), 128 ||| (n &&& 63)]
  else
    [240 ||| (n >>> 18), 128 ||| ((n >>> 12) &&& 63),
     128 ||| ((n >>> 6) &&& 63), 128 ||| (n &&& 63)]

/-- UTF-8 encoding of a string, as `data_string.encode('utf-8')` produces. -/
def utf8 (s : String) : List Nat := s.data.flatMap utf8Char

/-- `main.py` lines 115-117 (`get_hash`): SHA-256 of the UTF-8 bytes of a
string, rendered as 64 lowercase hexadecimal characters.  `analysis.py`
line 38 computes the same digest via `hashlib.sha256(...).hexdigest()`. -/
def get_hash (data_string : String) : String :=
  String.mk ((sha256Words (utf8 data_string)).flatMap wordHex)

/-! ### The append-only hash-chained log

`main.py` lines 186-192 build each CSV line as a comma-joined data
prefix (timestamp and sensor fields, ending in a comma) followed by the
current `prev_hash`, then advance the chain cursor to the hash of that
full line.  A record is therefore modelled by its data prefix and the
`prev_hash` field that closes its line. -/

structure LogRecord where
  data : String
  prev_hash : String
deriving DecidableEq

/-- The full serialized line of a record (what gets hashed; the trailing
`"\n"` is appended only when writing to the file, after hashing). -/
def lineOf (r : LogRecord) : String := r.data ++ r.prev_hash

/-- The genesis constant `"0" * 64` (`main.py` line 154, `analysis.py` line 25). -/
def GENESIS : String := String.mk (List.replicate 64 '0')

/-- `chainFrom h rs` holds when the records `rs` form a valid hash chain
whose first record carries `prev_hash = h`: each later record carries the
SHA-256 digest of the complete serialized line of its predecessor. -/
def chainFrom (h : String) : List LogRecord → Bool
  | [] => true
  | r :: rest => (r.prev_hash == h) && chainFrom (get_hash (lineOf r)) rest

/-- The log-chain invariant: record 0 carries the genesis constant and
record `i ≥ 1` carries `get_hash` of record `i-1`'s serialized line. -/
def chainOk (rs : List LogRecord) : Bool := chainFrom GENESIS rs

/-- The `prev_hash` value the next appended record must carry, starting
from seed `h`: the hash of the last record's line, or `h` itself if no
record follows. -/
def nextSeedFrom (h : String) : List LogRecord → String
  | [] => h
  | r :: rest => nextSeedFrom (get_hash (lineOf r)) rest

/-- The chain cursor value matching a whole log: genesis for an empty
log, else the hash of the last record's serialized line. -/
def nextSeed (rs : List LogRecord) : String := nextSeedFrom GENESIS rs

/-- `main.py` lines 186-192 (one Append): build the record from the data
prefix and the current cursor `prev_hash`, and return it together with
the advanced cursor `get_hash(log_line)`. -/
def appendRecord (prev_hash : String) (d : String) : LogRecord × String :=
  let r : LogRecord := ⟨d, prev_hash⟩
  (r, get_hash (lineOf r))

/-! ### The offline verifier (`analysis.py` lines 20-50)

`verify_hash_chain` rejects a log whose first row does not carry the
genesis constant, then walks rows `1..n-1`, recomputing the hash of the
previous row's reconstructed line and comparing it with the current
row's stored `prev_hash`; the first mismatch is reported and the walk
breaks immediately.  Rows are modelled by their reconstructed
serialization (data prefix plus `prev_hash`); `TamperedAt i` models the
`"TAMPERING DETECTED at line {i+1}"` report followed by `break`,
`TamperedGenesis` the genesis report, and `Verified` the `True` return.
On an empty frame `df.iloc[0]` raises, modelled by `none`. -/

inductive VerifyResult where
  | Verified
  | TamperedGenesis
  | TamperedAt (i : Nat)
deriving DecidableEq

/-- The pairwise walk of `analysis.py` lines 29-44, carrying the previous
row and the current row index `i`. -/
def verifyFrom : LogRecord → Nat → List LogRecord → VerifyResult
  | _, _, [] => .Verified
  | prev, i, r :: rest =>
      if get_hash (lineOf prev) == r.prev_hash then verifyFrom r (i + 1) rest
      else .TamperedAt i

/-- `analysis.py` lines 20-50 (`verify_hash_chain`). -/
def verify_hash_chain : List LogRecord → Option VerifyResult
  | [] => none
  | r0 :: rest =>
      if r0.prev_hash != GENESIS then some .TamperedGenesis
      else some (verifyFrom r0 1 rest)

/-! ### Resume (`main.py` lines 120-132 and 153-155) -/

/-- Python's whitespace set for `str.strip()`. -/
def isPyWs (c : Char) : Bool :=
  c == ' ' || c == '\t' || c == '\n' || c == '\r' || c == '\x0b' || c == '\x0c'

/-- Python `str.strip()` on a character list: drop whitespace from both ends. -/
def pyStripL (l : List Char) : List Char :=
  ((l.dropWhile isPyWs).reverse.dropWhile isPyWs).reverse

/-- Python `str.strip()`: drop whitespace from both ends. -/
def pyStrip (s : String) : String := String.mk (pyStripL s.data)

/-- `main.py` lines 120-132 (`get_last_line`): over the list of lines
`readlines()` returns (each still carrying its `"\n"`), return the last
line stripped when the file holds more than the header line, else `None`. -/
def get_last_line (lines : List String) : Option String :=
  if lines.length > 1 then lines.getLast?.map pyStrip else none

/-- `main.py` line 154: `prev_hash = get_hash(last_line) if last_line
else "0" * 64`.  Python truthiness: `None` and the empty string both
select the genesis constant. -/
def resumeSeed (lines : List String) : String :=
  match get_last_line lines with
  | some l => if l.isEmpty then GENESIS else get_hash l
  | none => GENESIS

/-! ### The main loop's buffering (`main.py` lines 157-208)

Each iteration of `run_logger`'s `while True` either completes —
appending one line to `log_buffer` and, once the buffer holds at least
20 lines, writing them all to the file and clearing the buffer — or
raises somewhere in the `try` block, upon which the handler writes every
buffered line to the file and sleeps, *without* clearing `log_buffer`.
`Ev.sample d` models a completed iteration that logs data prefix `d`;
`Ev.fail` models an iteration that raises before reaching the append
(e.g. in a sensor read). -/

inductive Ev where
  | sample (d : String)
  | fail

structure MainState where
  prev_hash : String
  log_buffer : List String
  file : List String

/-- One iteration of the `run_logger` loop (`main.py` lines 159-208). -/
def mainStep (st : MainState) : Ev → MainState
  | .sample d =>
      let log_line := d ++ st.prev_hash
      let buf := st.log_buffer ++ [log_line ++ "\n"]
      if buf.length ≥ 20 then
        ⟨get_hash log_line, [], st.file ++ buf⟩
      else
        ⟨get_hash log_line, buf, st.file⟩
  | .fail =>
      if st.log_buffer.isEmpty then st
      else ⟨st.prev_hash, st.log_buffer, st.file ++ st.log_buffer⟩

/-- A whole run of the main loop over a sequence of iteration outcomes,
starting from a fresh log (`prev_hash` genesis, empty buffer and file). -/
def runEvents (evs : List Ev) : MainState :=
  evs.foldl mainStep ⟨GENESIS, [], []⟩

/-! ### Chain lemmas -/

theorem chainFrom_append (rs : List LogRecord) (g : String) (r : LogRecord) :
    chainFrom g (rs ++ [r]) =
      (chainFrom g rs && (r.prev_hash == nextSeedFrom g rs)) := by
  induction rs generalizing g with
  | nil => simp [chainFrom, nextSeedFrom]
  | cons r0 rs ih => simp [chainFrom, nextSeedFrom, ih, Bool.and_assoc]

theorem nextSeedFrom_append (rs : List LogRecord) (g : String) (r : LogRecord) :
    nextSeedFrom g (rs ++ [r]) = get_hash (lineOf r) := by
  induction rs generalizing g with
  | nil => simp [nextSeedFrom]
  | cons r0 rs ih => simp [nextSeedFrom, ih]

/-- C1: Hash-chain invariant.  If the records logged so far form a valid
chain (record 0 carries the 64-zero genesis constant, and every record
`i ≥ 1` carries the SHA-256 lowercase-hex digest of the complete
serialized line of record `i-1`, that line's own `prev_hash` field
included) and the chain cursor equals the seed for the next record, then
one Append (`main.py` lines 186-192) appends a record that keeps the
chain valid and advances the cursor to the seed of the extended chain. -/
theorem append_preserves_chain (rs : List LogRecord) (h d : String)
    (hok : chainOk rs = true) (hseed : h = nextSeed rs) :
    chainOk (rs ++ [(appendRecord h d).1]) = true ∧
      (appendRecord h d).2 = nextSeed (rs ++ [(appendRecord h d).1]) := by
  constructor
  · simp [chainOk, nextSeed, appendRecord, chainFrom_append] at *
    exact ⟨hok, hseed⟩
  · simp [nextSeed, appendRecord, nextSeedFrom_append]

theorem append_preserves_chain_witness :
    chainOk ([] ++ [(appendRecord GENESIS "a,").1]) = true ∧
      (appendRecord GENESIS "a,").2 =
        nextSeed ([] ++ [(appendRecord GENESIS "a,").1]) :=
  append_preserves_chain [] GENESIS "a," (by decide) (by decide)

/-- C8: Genesis check.  Whatever the remaining rows are, a log whose
first record's `prev_hash` is not the 64-zero genesis constant is
reported as `TamperedGenesis` and the pairwise chain walk over the
remaining rows never runs (`analysis.py` lines 25-27). -/
theorem genesis_check (r0 : LogRecord) (rest : List LogRecord)
    (hg : r0.prev_hash ≠ GENESIS) :
    verify_hash_chain (r0 :: rest) = some VerifyResult.TamperedGenesis := by
  simp [verify_hash_chain, hg]

theorem genesis_check_witness :
    verify_hash_chain [⟨"a,", "1"⟩] = some VerifyResult.TamperedGenesis :=
  genesis_check ⟨"a,", "1"⟩ [] (by decide)

/-! ### Tamper detection -/

/-- Replace the byte at position `i` of a string: a single-byte mutation
of serialized text. -/
def setChar (s : String) (i : Nat) (c : Char) : String := String.mk (s.data.set i c)

/-- The record whose stored text is record `r`'s serialized line with the
byte at position `i` of the data prefix replaced by `c` (the `prev_hash`
field that closes the line is untouched). -/
def mutData (r : LogRecord) (i : Nat) (c : Char) : LogRecord :=
  ⟨setChar r.data i c, r.prev_hash⟩

theorem verified_cons {p : LogRecord} {i : Nat} {r : LogRecord}
    {rest : List LogRecord}
    (hv : verifyFrom p i (r :: rest) = .Verified) :
    (get_hash (lineOf p) == r.prev_hash) = true ∧
      verifyFrom r (i + 1) rest = .Verified := by
  unfold verifyFrom at hv
  split at hv
  · exact ⟨by assumption, hv⟩
  · exact absurd hv (by simp)

theorem verifyFrom_mut (xs : List LogRecord) :
    ∀ (p : LogRecord) (i : Nat) (r r' s : LogRecord) (ys : List LogRecord),
      verifyFrom p i (xs ++ r :: s :: ys) = .Verified →
      r'.prev_hash = r.prev_hash →
      get_hash (lineOf r') ≠ get_hash (lineOf r) →
      verifyFrom p i (xs ++ r' :: s :: ys) = .TamperedAt (i + xs.length + 1) := by
  induction xs with
  | nil =>
      intro p i r r' s ys hv hp hh
      obtain ⟨h1, hv2⟩ := verified_cons hv
      obtain ⟨h2, _⟩ := verified_cons hv2
      have hs : get_hash (lineOf r) = s.prev_hash := by
        simpa using h2
      simp only [List.nil_append, List.length_nil] at *
      unfold verifyFrom
      rw [hp, if_pos h1]
      unfold verifyFrom
      rw [if_neg (by simp [← hs, hh])]
  | cons x xs ih =>
      intro p i r r' s ys hv hp hh
      obtain ⟨h1, hv2⟩ := verified_cons hv
      have := ih x (i + 1) r r' s ys hv2 hp hh
      simp only [List.cons_append, List.length_cons]
      unfold verifyFrom
      rw [if_pos h1, this]
      congr 1
      omega

/-- C2 (amended): given a valid chain of `k ≥ 2` records, mutating a
single byte of the *data portion* of record `j`'s serialized text
(`0 ≤ j < k-1`, the byte not lying in the trailing `prev_hash` field),
provided the SHA-256 digest of the mutated line differs from that of the
original line, makes `verify_hash_chain` report `TamperedAt (j+1)` — and,
the walk halting at the first mismatch, no later index.  Here `j` is
`xs.length`. -/
theorem tamper_detection (xs ys : List LogRecord) (r s : LogRecord)
    (i : Nat) (c : Char)
    (hvalid : verify_hash_chain (xs ++ r :: s :: ys) = some .Verified)
    (_hi : i < r.data.data.length)
    (_hc : r.data.data.get? i ≠ some c)
    (hh : get_hash (lineOf (mutData r i c)) ≠ get_hash (lineOf r)) :
    verify_hash_chain (xs ++ mutData r i c :: s :: ys) =
      some (VerifyResult.TamperedAt (xs.length + 1)) := by
  have hmutph : (mutData r i c).prev_hash = r.prev_hash := rfl
  cases xs with
  | nil =>
      by_cases hgen : r.prev_hash = GENESIS
      · have hv : verifyFrom r 1 (s :: ys) = .Verified := by
          simp [verify_hash_chain, hgen] at hvalid
          exact hvalid
        obtain ⟨h2, _⟩ := verified_cons hv
        have hs : get_hash (lineOf r) = s.prev_hash := by simpa using h2
        simp only [List.nil_append, List.length_nil, Nat.zero_add]
        simp only [verify_hash_chain, hmutph]
        rw [if_neg (by simp [hgen])]
        unfold verifyFrom
        rw [if_neg (by simp [← hs, hh])]
      · simp [verify_hash_chain, hgen] at hvalid
  | cons x0 xs' =>
      by_cases hgen : x0.prev_hash = GENESIS
      · have hv : verifyFrom x0 1 (xs' ++ r :: s :: ys) = .Verified := by
          simp [verify_hash_chain, hgen] at hvalid
          exact hvalid
        have hm := verifyFrom_mut xs' x0 1 r (mutData r i c) s ys hv hmutph hh
        simp only [List.cons_append, List.length_cons]
        simp only [verify_hash_chain]
        rw [if_neg (by simp [hgen])]
        rw [hm]
        congr 2
        omega
      · simp [verify_hash_chain, hgen] at hvalid

/-- Record 0 of the concrete chain used to settle C2. -/
def cexR0 : LogRecord := ⟨"a,", GENESIS⟩

/-- Record 1 of the concrete chain: its `prev_hash` is the SHA-256 digest
of `lineOf cexR0`. -/
def cexR1 : LogRecord :=
  ⟨"b,", "08f7c56dadd8e83722f529fe05e89dde977944dc2315c3844488fdaf09d55275"⟩

/-- Record 0 with one byte of its serialized text mutated: position 2 —
the first byte of its `prev_hash` field — changed from `'0'` to `'1'`. -/
def cexMut : LogRecord := ⟨"a,", String.mk ('1' :: List.replicate 63 '0')⟩

set_option maxRecDepth 40000 in
/-- C2 (counterexample to the claim as stated): `[cexR0, cexR1]` is a
valid chain of `k = 2` records, and mutating the single byte at position
2 of record `j = 0`'s serialized text (a byte of the `prev_hash` field)
makes the verifier report `TamperedGenesis`, not `TamperedAt (j+1) = 1`. -/
theorem tamper_index_counterexample :
    verify_hash_chain [cexR0, cexR1] = some VerifyResult.Verified ∧
      lineOf cexMut = setChar (lineOf cexR0) 2 '1' ∧
      lineOf cexMut ≠ lineOf cexR0 ∧
      verify_hash_chain [cexMut, cexR1] = some VerifyResult.TamperedGenesis ∧
      VerifyResult.TamperedGenesis ≠ VerifyResult.TamperedAt 1 := by
  refine ⟨by decide, by decide, by decide, by decide, by decide⟩

set_option maxRecDepth 40000 in
theorem tamper_detection_witness :
    verify_hash_chain [mutData cexR0 0 'x', cexR1] =
      some (VerifyResult.TamperedAt 1) :=
  tamper_detection [] [] cexR0 cexR1 0 'x'
    (by decide) (by decide) (by decide) (by decide)

/-! ### Resume correctness -/

theorem dropWhile_append_nl (l : List Char) :
    List.dropWhile isPyWs (l ++ ['\n']) =
      if (List.dropWhile isPyWs l).isEmpty then []
      else List.dropWhile isPyWs l ++ ['\n'] := by
  induction l with
  | nil => simp [List.dropWhile, isPyWs]
  | cons c l ih =>
      by_cases hc : isPyWs c = true
      · simpa [List.dropWhile, hc] using ih
      · simp [List.dropWhile, hc]

theorem pyStripL_append_nl (l : List Char) : pyStripL (l ++ ['\n']) = pyStripL l := by
  unfold pyStripL
  rw [dropWhile_append_nl]
  by_cases he : (List.dropWhile isPyWs l).isEmpty
  · rw [if_pos he]
    rw [List.isEmpty_iff] at he
    rw [he]
  · rw [if_neg he, List.reverse_append]
    simp [List.dropWhile, isPyWs]

theorem pyStrip_append_nl (s : String) : pyStrip (s ++ "\n") = pyStrip s := by
  have hd : (s ++ "\n").data = s.data ++ ['\n'] := by cases s; rfl
  unfold pyStrip
  rw [hd, pyStripL_append_nl]

/-- C4: Resume correctness.  On restart over a log file whose lines are
the header followed by the serialized record lines of `rs₀ ++ [rlast]`
(each with its trailing newline), the chain cursor computed by `main.py`
lines 153-154 is `get_hash` of the last record's serialized line, and
the next Append builds a record whose `prev_hash` field equals exactly
that value; on a log holding only the header, the cursor is the 64-zero
genesis constant.  The side conditions say the last line carries no
leading/trailing whitespace of its own and is nonempty — true of every
line the logger writes, whose final field is a 64-character digest. -/
theorem resume_correctness (header d : String) (rs₀ : List LogRecord)
    (rlast : LogRecord)
    (hstrip : pyStrip (lineOf rlast) = lineOf rlast)
    (hne : lineOf rlast ≠ "") :
    resumeSeed (header :: (rs₀ ++ [rlast]).map (fun r => lineOf r ++ "\n")) =
        get_hash (lineOf rlast) ∧
      ((appendRecord
          (resumeSeed (header :: (rs₀ ++ [rlast]).map (fun r => lineOf r ++ "\n")))
          d).1).prev_hash = get_hash (lineOf rlast) ∧
      resumeSeed [header] = GENESIS := by
  have hget :
      get_last_line (header :: (rs₀ ++ [rlast]).map (fun r => lineOf r ++ "\n")) =
        some (lineOf rlast) := by
    unfold get_last_line
    rw [if_pos (by simp)]
    rw [show (header :: (rs₀ ++ [rlast]).map (fun r => lineOf r ++ "\n")) =
          (header :: rs₀.map (fun r => lineOf r ++ "\n")) ++ [lineOf rlast ++ "\n"] by
        simp]
    rw [List.getLast?_concat]
    simp [pyStrip_append_nl, hstrip]
  have hemp : (lineOf rlast).isEmpty = false := by
    cases hanl : (lineOf rlast).isEmpty
    · rfl
    · exact absurd (by simpa [String.isEmpty_iff] using hanl) hne
  have hseed :
      resumeSeed (header :: (rs₀ ++ [rlast]).map (fun r => lineOf r ++ "\n")) =
        get_hash (lineOf rlast) := by
    unfold resumeSeed
    rw [hget]
    simp [hemp]
  refine ⟨hseed, by rw [hseed]; rfl, by simp [resumeSeed, get_last_line]⟩

/-- The one-record log used to witness C4. -/
def c4rec : LogRecord := ⟨"a,", GENESIS⟩

theorem resume_correctness_witness :
    resumeSeed ("h" :: (([] : List LogRecord) ++ [c4rec]).map
        (fun r => lineOf r ++ "\n")) = get_hash (lineOf c4rec) ∧
      ((appendRecord
          (resumeSeed ("h" :: (([] : List LogRecord) ++ [c4rec]).map
            (fun r => lineOf r ++ "\n")))
          "b,").1).prev_hash = get_hash (lineOf c4rec) ∧
      resumeSeed ["h"] = GENESIS :=
  resume_correctness "h" "b," [] c4rec (by decide) (by decide)

/-! ### Exactly-once writes -/

/-- The single line appended by the one completed iteration in the C5 run. -/
def c5line : String := "a," ++ GENESIS ++ "\n"

/-- C5 (code bug): after one completed iteration buffers one line, an
iteration that raises makes the handler of `main.py` lines 202-208 write
the buffered line to the file — but `log_buffer` is not cleared, so a
second raising iteration (or the next threshold flush) writes the very
same line to the file again: the backing file ends holding the one
appended record twice. -/
theorem duplicate_write_on_error :
    (runEvents [Ev.sample "a,", Ev.fail]).file = [c5line] ∧
      (runEvents [Ev.sample "a,", Ev.fail]).log_buffer = [c5line] ∧
      (runEvents [Ev.sample "a,", Ev.fail, Ev.fail]).file = [c5line, c5line] ∧
      (runEvents [Ev.sample "a,", Ev.fail, Ev.fail]).file.count c5line = 2 := by
  refine ⟨by decide, by decide, by decide, by decide⟩

/-! ### The SD-card driver (`src/firmware/lib/sdcard.py`)

The SPI bus is modelled by a `CardModel`: for the `n`-th `_cmd` call of
the session the card answers the 6-byte command frame with a byte stream
(`poll`) scanned for the R1 token, and, for commands with a payload,
with payload bytes (`payload`).  A stream read past its end yields
`0xFF` — an idle bus line. -/

structure CardModel where
  poll : Nat → List Nat → List Nat
  payload : Nat → List Nat → List Nat

/-- One byte read from the bus: the `i`-th byte of the card's stream, or
`0xFF` once the card has nothing more to say. -/
def busByte (bs : List Nat) (i : Nat) : Nat := (bs.get? i).getD 0xFF

/-- `sdcard.py` lines 109-114: the 6-byte command frame — `0x40 | cmd`,
the 32-bit argument in big-endian order, then the checksum byte. -/
def cmdbuf (cmd arg crc : Nat) : List Nat :=
  [0x40 ||| cmd, (arg >>> 24) &&& 0xFF, (arg >>> 16) &&& 0xFF,
   (arg >>> 8) &&& 0xFF, arg &&& 0xFF, crc]

/-- `sdcard.py` lines 118-120: poll up to `_CMD_TIMEOUT = 100` bytes for
a response token (high bit clear). -/
def findR1 (bs : List Nat) : Option Nat :=
  (List.range 100).findSome? fun i =>
    let b := busByte bs i
    if b &&& 0x80 == 0 then some b else none

/-- What `SDCard._cmd` returns: the `int` R1 token when `readlen == 0`,
a `bytearray` payload when `readlen > 0`, or the `int` `-1` on timeout. -/
inductive CmdResult where
  | token (t : Nat)
  | payload (bs : List Nat)
  | timeout
deriving DecidableEq

/-- `sdcard.py` lines 108-127 (`SDCard._cmd`): write the frame, poll for
the R1 token; with `readlen == 0` return the token itself, otherwise
read and return `readlen` payload bytes (the token is discarded); on
poll exhaustion return `-1`.  `n` numbers this `_cmd` call within the
session, so the card model can answer each call differently. -/
def cmdRun (c : CardModel) (n cmd arg crc readlen : Nat) : CmdResult :=
  let frame := cmdbuf cmd arg crc
  match findR1 (c.poll n frame) with
  | none => .timeout
  | some t =>
      if readlen == 0 then .token t
      else .payload ((List.range readlen).map (busByte (c.payload n frame)))

/-- MicroPython `==` between `_cmd`'s result and a nonnegative integer
constant: an `int` token compares by value; a `bytearray` payload never
equals an `int`; the `-1` timeout sentinel never equals the constants
(`1`, `5`, `0`) compared against. -/
def pyEqNat : CmdResult → Nat → Bool
  | .token t, m => t == m
  | _, _ => false

/-- MicroPython subscript `r[i]` on `_cmd`'s result: defined only on a
`bytearray` payload; on the `int` results it raises `TypeError`
(modelled as `none`). -/
def pyIndex : CmdResult → Nat → Option Nat
  | .payload bs, i => bs.get? i
  | _, _ => none

/-- `sdcard.py` lines 78-89: the ACMD41 poll loop — CMD55 then ACMD41,
until ACMD41 answers `0`.  The 1-second wall-clock bound is modelled by
`fuel` attempts; `n` numbers the `_cmd` calls made so far.  Returns the
call counter after the loop exits. -/
def acmd41Loop (c : CardModel) (arg : Nat) : Nat → Nat → Except String Nat
  | 0, _ => .error "SD card: Timeout on ACMD41"
  | fuel + 1, n =>
      if pyEqNat (cmdRun c n 55 0 0 0) 1 then
        if pyEqNat (cmdRun c (n + 1) 41 arg 0 0) 0 then .ok (n + 2)
        else acmd41Loop c arg fuel (n + 2)
      else acmd41Loop c arg fuel (n + 1)

/-- `sdcard.py` lines 78-106: the remainder of `init_card` after the CMD8
branch has picked `card_type` (1 = SD1, 2 = SD2, 3 = SDHC): ACMD41 poll
with the HCS bit for SD2, OCR read (SD2 only; `r[0]` on a timeout `-1`
raises `TypeError`), then CMD16 with argument 512. -/
def afterCmd8 (c : CardModel) (card_type n fuel : Nat) : Except String Nat := do
  let arg := if card_type == 2 then 0x40000000 else (0 : Nat)
  let n2 ← acmd41Loop c arg fuel n
  let s ←
    if card_type == 2 then
      match pyIndex (cmdRun c n2 58 0 0 4) 0 with
      | none => Except.error "TypeError: subscript on int"
      | some b0 =>
          Except.ok (if b0 &&& 0x40 != 0 then ((3 : Nat), n2 + 1) else (2, n2 + 1))
    else Except.ok (card_type, n2)
  if ! pyEqNat (cmdRun c s.2 16 512 0 0) 0 then
    Except.error "SD card: Error on CMD16 (set blocklen)"
  else Except.ok s.1

/-- `sdcard.py` lines 47-106 (`SDCard.init_card`): CMD0 with checksum
`0x95`, CMD8 with argument `0x1AA` and checksum `0x87` reading a 4-byte
payload, then card-type dispatch.  Because `_cmd` is called with
`readlen = 4`, its result `r` is the payload `bytearray` (or `-1`), and
MicroPython's `r == _R1_IDLE_STATE` / `r == (_R1_IDLE_STATE |
_R1_ILLEGAL_COMMAND)` compare a `bytearray` (or `-1`) with an `int`. -/
def init_card (c : CardModel) (fuel : Nat) : Except String Nat :=
  if ! pyEqNat (cmdRun c 0 0 0 0x95 0) 1 then
    .error "SD card: No response to CMD0"
  else
    let r := cmdRun c 1 8 0x1AA 0x87 4
    if pyEqNat r 1 then
      match pyIndex r 1, pyIndex r 2 with
      | some b1, some b2 =>
          if b1 != 0x01 || b2 != 0xAA then .error "SD card: Invalid response to CMD8"
          else afterCmd8 c 2 2 fuel
      | _, _ => .error "TypeError: subscript on int"
    else if pyEqNat r 5 then
      afterCmd8 c 1 2 fuel
    else .error "SD card: Invalid response to CMD8"

/-- `sdcard.py` lines 129-136 (`SDCard._wait_ready`): poll until a byte
equals `0xFF`; the 500 ms wall-clock bound is modelled as 500 polls. -/
def wait_ready (bs : List Nat) : Int :=
  match (List.range 500).find? (fun i => busByte bs i == 0xFF) with
  | some _ => 0
  | none => -1

/-- `sdcard.py` lines 171-174: after the data block and dummy CRC, read
up to `_CMD_TIMEOUT = 100` bytes, breaking at the first whose bit 4
(`0x10`) is set; `tokenbuf` then holds that byte, or the 100th byte read
when none matched. -/
def writePollToken (bs : List Nat) : Nat :=
  match (List.range 100).find? (fun i => busByte bs i &&& 0x10 != 0) with
  | some i => busByte bs i
  | none => busByte bs 99

/-- `sdcard.py` lines 160-185 (`SDCard._write`): send the command frame
(`cmdPoll` is the card's response stream to it), require token `0`; send
start token + 512 data bytes + 2 dummy CRC bytes (`dataResp` is the byte
stream the card produces afterwards); poll for the response token; if
its low four bits are not `5`, return `-1`; then `_wait_ready` over the
`ready` stream; `0` on success. -/
def sdWrite (cmdPoll dataResp ready : List Nat) : Int :=
  match findR1 cmdPoll with
  | none => -1
  | some t =>
      if t != 0 then -1
      else
        let tok := writePollToken dataResp
        if tok &&& 0x0F != 5 then -1
        else if wait_ready ready != 0 then -1
        else 0

/-- `sdcard.py` lines 188-218: the shared loop of `readblocks` (opcode
17) and `writeblocks` (opcode 24): for the `i`-th block, `addr =
block_num + i`, multiplied by 512 unless `card_type` is 3 (SDHC); stop
with `-1` on the first failed single-block transfer.  `ok i` abstracts
whether the `i`-th `_readinto`/`_write` succeeds; the list collects the
`(opcode, argument)` of every command issued. -/
def rwLoop (opcode card_type block_num : Nat) (ok : Nat → Bool) :
    Nat → Nat → Int × List (Nat × Nat)
  | _, 0 => (0, [])
  | i, n + 1 =>
      let addr0 := block_num + i
      let addr := if card_type != 3 then addr0 * 512 else addr0
      if ok i then
        let rest := rwLoop opcode card_type block_num ok (i + 1) n
        (rest.1, (opcode, addr) :: rest.2)
      else (-1, [(opcode, addr)])

/-- `sdcard.py` lines 188-202 (`SDCard.readblocks`): `ValueError` unless
the buffer holds exactly `512 * num_blocks` bytes, then the single-block
loop. -/
def readblocks (card_type block_num num_blocks bufLen : Nat) (ok : Nat → Bool) :
    Except String (Int × List (Nat × Nat)) :=
  if bufLen != 512 * num_blocks then .error "Buffer size must be 512 * num_blocks"
  else .ok (rwLoop 17 card_type block_num ok 0 num_blocks)

/-- `sdcard.py` lines 204-218 (`SDCard.writeblocks`): same structure with
opcode 24. -/
def writeblocks (card_type block_num num_blocks bufLen : Nat) (ok : Nat → Bool) :
    Except String (Int × List (Nat × Nat)) :=
  if bufLen != 512 * num_blocks then .error "Buffer size must be 512 * num_blocks"
  else .ok (rwLoop 24 card_type block_num ok 0 num_blocks)

/-! ### Bring-up, write acceptance, addressing, wire format -/

theorem pyEqNat_readlen4 (c : CardModel) (n cmd arg crc m : Nat) :
    pyEqNat (cmdRun c n cmd arg crc 4) m = false := by
  unfold cmdRun
  rcases h : findR1 (c.poll n (cmdbuf cmd arg crc)) with _ | t <;> simp [h, pyEqNat]

/-- C3 (code bug): for EVERY card model — in particular every card whose
responses follow the §4.1 negotiation protocol — and every ACMD41 fuel
bound, `init_card` returns an error and never establishes a card type:
`_cmd` with `readlen = 4` hands back the 4-byte CMD8 payload (or `-1`),
never the R1 token, and MicroPython's `==` between that value and the
integer tokens `_R1_IDLE_STATE` / `_R1_IDLE_STATE | _R1_ILLEGAL_COMMAND`
is always false, so lines 68-75 always reach the final `raise`. -/
theorem init_card_never_ready (c : CardModel) (fuel : Nat) :
    ∃ e, init_card c fuel = Except.error e := by
  unfold init_card
  cases h0 : pyEqNat (cmdRun c 0 0 0 0x95 0) 1 with
  | false => exact ⟨_, by rw [if_pos (by simp [h0])]⟩
  | true =>
      refine ⟨"SD card: Invalid response to CMD8", ?_⟩
      rw [if_neg (by simp [h0])]
      rw [if_neg (by simp [pyEqNat_readlen4])]
      rw [if_neg (by simp [pyEqNat_readlen4])]

/-- C6 (code bug): a conforming card that ACCEPTS the block — its first
response byte after the data + CRC is the data-accept token `0x05`
(pattern `xxx0sss1`, `sss = 010`: low four bits equal 5), followed by a
busy byte and then ready `0xFF` — is reported as rejected (`-1`): the
poll of lines 171-174 breaks only on bytes with bit 4 SET, which every
data-response token has CLEAR, so it skips the accept token and halts on
the `0xFF` line fill, whose low nibble is 15 ≠ 5. -/
theorem write_rejects_accepting_card :
    busByte [0x05, 0x00, 0xFF] 0 &&& 0x0F = 5 ∧
      sdWrite [0x00] [0x05, 0x00, 0xFF] [0xFF] = -1 := by
  refine ⟨by decide, by decide⟩

theorem rwLoop_ok (op ct bn : Nat) (ok : Nat → Bool) (hok : ∀ i, ok i = true) :
    ∀ (n i : Nat), rwLoop op ct bn ok i n =
      (0, (List.range n).map (fun j =>
        (op, if ct != 3 then (bn + i + j) * 512 else bn + i + j))) := by
  intro n
  induction n with
  | zero => intro i; simp [rwLoop]
  | succ n ih =>
      intro i
      rw [rwLoop, hok i]
      simp only [if_true, ih (i + 1), List.range_succ_eq_map, List.map_cons,
        List.map_map]
      refine congrArg (Prod.mk 0) ?_
      refine congrArg₂ List.cons (by simp [Nat.add_zero]) ?_
      refine List.map_congr_left ?_
      intro j _
      simp only [Function.comp_apply]
      have : bn + (i + 1) + j = bn + i + (j + 1) := by omega
      rw [this]

/-- C7: Address scaling.  A transfer of `n` blocks starting at
`block_num`, all of whose single-block operations succeed, issues exactly
`n` single-block commands (opcode 17 for reads, 24 for writes) whose
argument for the `i`-th block is `block_num + i` when the card type fixed
at initialization is 3 (SDHC, block-addressed) and `(block_num + i) *
512` otherwise (byte-addressed), and returns 0. -/
theorem address_scaling (card_type block_num n : Nat) (ok : Nat → Bool)
    (hok : ∀ i, ok i = true) :
    readblocks card_type block_num n (512 * n) ok =
        .ok (0, (List.range n).map (fun i =>
          (17, if card_type != 3 then (block_num + i) * 512 else block_num + i))) ∧
      writeblocks card_type block_num n (512 * n) ok =
        .ok (0, (List.range n).map (fun i =>
          (24, if card_type != 3 then (block_num + i) * 512 else block_num + i))) := by
  have h17 := rwLoop_ok 17 card_type block_num ok hok n 0
  have h24 := rwLoop_ok 24 card_type block_num ok hok n 0
  constructor
  · unfold readblocks
    rw [if_neg (by simp)]
    rw [h17]
    simp
  · unfold writeblocks
    rw [if_neg (by simp)]
    rw [h24]
    simp

theorem address_scaling_witness :
    readblocks 3 7 2 (512 * 2) (fun _ => true) =
        .ok (0, (List.range 2).map (fun i =>
          (17, if (3 : Nat) != 3 then (7 + i) * 512 else 7 + i))) ∧
      writeblocks 3 7 2 (512 * 2) (fun _ => true) =
        .ok (0, (List.range 2).map (fun i =>
          (24, if (3 : Nat) != 3 then (7 + i) * 512 else 7 + i))) :=
  address_scaling 3 7 2 (fun _ => true) (fun _ => rfl)

/-- C9: Command wire format.  Every frame `_cmd` writes is exactly 6
bytes: byte 0 is `0x40 | opcode`, bytes 1-4 are the 32-bit argument in
big-endian order (their big-endian recombination recovers the argument),
and byte 5 is the checksum byte passed by the caller — `0x95` for CMD0
and `0x87` for CMD8 at the two bring-up call sites (lines 61 and 67),
the fixed placeholder `0` everywhere else. -/
theorem cmd_wire_format (cmd arg crc : Nat) (harg : arg < 2 ^ 32) :
    (cmdbuf cmd arg crc).length = 6 ∧
      (cmdbuf cmd arg crc).get? 0 = some (0x40 ||| cmd) ∧
      (cmdbuf cmd arg crc).get? 5 = some crc ∧
      ((cmdbuf cmd arg crc).get? 1).getD 0 * 16777216 +
          ((cmdbuf cmd arg crc).get? 2).getD 0 * 65536 +
          ((cmdbuf cmd arg crc).get? 3).getD 0 * 256 +
          ((cmdbuf cmd arg crc).get? 4).getD 0 = arg := by
  refine ⟨rfl, rfl, rfl, ?_⟩
  simp only [cmdbuf, List.get?, Option.getD_some]
  have hmask : ∀ x : Nat, x &&& 0xFF = x % 2 ^ 8 := by
    intro x
    simpa using Nat.and_pow_two_sub_one_eq_mod x 8
  simp only [Nat.shiftRight_eq_div_pow, hmask]
  omega

theorem cmd_wire_format_witness :
    (cmdbuf 8 0x1AA 0x87).length = 6 ∧
      (cmdbuf 8 0x1AA 0x87).get? 0 = some (0x40 ||| 8) ∧
      (cmdbuf 8 0x1AA 0x87).get? 5 = some 0x87 ∧
      ((cmdbuf 8 0x1AA 0x87).get? 1).getD 0 * 16777216 +
          ((cmdbuf 8 0x1AA 0x87).get? 2).getD 0 * 65536 +
          ((cmdbuf 8 0x1AA 0x87).get? 3).getD 0 * 256 +
          ((cmdbuf 8 0x1AA 0x87).get? 4).getD 0 = 0x1AA :=
  cmd_wire_format 8 0x1AA 0x87 (by decide)

/-! ### The field codec: Python formatting and pandas parsing

`main.py` line 187-189 formats each sensor field with a fixed f-string
conversion (`{x}` for ints, `{x:.2f}` / `{x:.6f}` / `{x:.1f}` for
floats); `analysis.py` lines 32-36 re-renders the values pandas parsed
out of the CSV with the same conversions.  Integers are modelled as
`Int`; floats as sign-magnitude exact rationals (`PyFloat`): the sign
bit carries Python's negative zero, the magnitude is exact.  `{x:.kf}`
rounds the value half-to-even at `k` decimals, exactly as CPython does
on the (rational) value of a float; CSV parsing of a fixed-point literal
is modelled as exact. -/

def digitChar (n : Nat) : Char :=
  match n with
  | 0 => '0' | 1 => '1' | 2 => '2' | 3 => '3' | 4 => '4'
  | 5 => '5' | 6 => '6' | 7 => '7' | 8 => '8' | _ => '9'

def digitVal (c : Char) : Nat := c.toNat - 48

/-- Decimal digits of `n`, most significant first (`fuel` bounds the
recursion; `natDigitsL` instantiates it sufficiently). -/
def natDigitsAux : Nat → Nat → List Char
  | 0, _ => []
  | fuel + 1, n =>
      if n < 10 then [digitChar n]
      else natDigitsAux fuel (n / 10) ++ [digitChar (n % 10)]

def natDigitsL (n : Nat) : List Char := natDigitsAux (n + 1) n

/-- Python's rendering of an `int`: optional minus sign, then decimal
digits with no leading zeros; `str(int)` in CPython, and the identical
rendering pandas gives an `int64` cell. -/
def pyIntRepr (n : Int) : String :=
  if n < 0 then String.mk ('-' :: natDigitsL n.natAbs)
  else String.mk (natDigitsL n.natAbs)

/-- Decimal value of a most-significant-first digit list. -/
def digitsVal (l : List Char) : Nat :=
  l.foldl (fun a c => 10 * a + digitVal c) 0

/-- Parse of an unsigned decimal token (as pandas does for an integer
column cell). -/
def parseNatL (l : List Char) : Option Nat :=
  if l.isEmpty then none
  else if l.all Char.isDigit then some (digitsVal l)
  else none

/-- Parse of a signed decimal token. -/
def parseIntL (l : List Char) : Option Int :=
  if l.head? = some '-' then (parseNatL (l.drop 1)).map (fun m => -(Int.ofNat m))
  else (parseNatL l).map (fun m => Int.ofNat m)

theorem digitVal_digitChar : ∀ n < 10, digitVal (digitChar n) = n := by decide

theorem digitChar_isDigit (n : Nat) : (digitChar n).isDigit = true := by
  unfold digitChar
  rcases n with _|_|_|_|_|_|_|_|_|n <;> rfl

theorem digitsVal_append (l : List Char) (c : Char) :
    digitsVal (l ++ [c]) = 10 * digitsVal l + digitVal c := by
  simp [digitsVal, List.foldl_append]

theorem natDigitsAux_val : ∀ fuel n, n < fuel → digitsVal (natDigitsAux fuel n) = n := by
  intro fuel
  induction fuel with
  | zero => omega
  | succ fuel ih =>
      intro n hn
      unfold natDigitsAux
      by_cases h10 : n < 10
      · rw [if_pos h10]
        simp [digitsVal, digitVal_digitChar n h10]
      · rw [if_neg h10]
        rw [digitsVal_append, ih (n / 10) (by omega),
          digitVal_digitChar (n % 10) (by omega)]
        omega

theorem natDigitsAux_digits :
    ∀ fuel n, ∀ c ∈ natDigitsAux fuel n, c.isDigit = true := by
  intro fuel
  induction fuel with
  | zero => intro n c hc; simp [natDigitsAux] at hc
  | succ fuel ih =>
      intro n c hc
      unfold natDigitsAux at hc
      by_cases h10 : n < 10
      · rw [if_pos h10] at hc
        simp at hc
        rw [hc]
        exact digitChar_isDigit n
      · rw [if_neg h10] at hc
        rcases List.mem_append.mp hc with h | h
        · exact ih (n / 10) c h
        · simp at h
          rw [h]
          exact digitChar_isDigit (n % 10)

theorem natDigitsAux_ne_nil (fuel n : Nat) (h : n < fuel) :
    natDigitsAux fuel n ≠ [] := by
  cases fuel with
  | zero => omega
  | succ fuel =>
      unfold natDigitsAux
      by_cases h10 : n < 10
      · simp [h10]
      · simp [h10]

theorem parseNat_natDigits (m : Nat) : parseNatL (natDigitsL m) = some m := by
  unfold parseNatL
  rw [if_neg (by simpa [List.isEmpty_iff] using natDigitsAux_ne_nil (m + 1) m (by omega))]
  rw [if_pos (by simpa [List.all_eq_true] using natDigitsAux_digits (m + 1) m)]
  rw [show digitsVal (natDigitsL m) = m from natDigitsAux_val (m + 1) m (by omega)]

theorem natDigits_head_digit (m : Nat) :
    ∀ c, (natDigitsL m).head? = some c → c.isDigit = true := by
  intro c hc
  have hne := natDigitsAux_ne_nil (m + 1) m (by omega)
  rcases hl : natDigitsL m with _ | ⟨d, l⟩
  · exact absurd hl hne
  · rw [hl] at hc
    simp at hc
    rw [← hc]
    exact natDigitsAux_digits (m + 1) m d (by rw [show natDigitsAux (m+1) m = natDigitsL m from rfl, hl]; simp)

theorem parseInt_pyIntRepr (n : Int) : parseIntL (pyIntRepr n).data = some n := by
  unfold pyIntRepr parseIntL
  by_cases hn : n < 0
  · rw [if_pos hn]
    simp only [String.data]
    rw [if_pos (show ('-' :: natDigitsL n.natAbs).head? = some '-' from rfl)]
    rw [show List.drop 1 ('-' :: natDigitsL n.natAbs) = natDigitsL n.natAbs from rfl]
    rw [parseNat_natDigits]
    simp only [Option.map_some']
    refine congrArg some ?_
    simp only [Int.ofNat_eq_coe]
    omega
  · rw [if_neg hn]
    simp only [String.data]
    have hhead : (natDigitsL n.natAbs).head? ≠ some '-' := by
      intro h
      have := natDigits_head_digit n.natAbs '-' h
      simp [Char.isDigit] at this
    rw [if_neg hhead]
    rw [parseNat_natDigits]
    simp only [Option.map_some']
    refine congrArg some ?_
    simp only [Int.ofNat_eq_coe]
    omega

/-- A Python float value: sign bit (carrying the sign of negative zero)
and exact magnitude. -/
structure PyFloat where
  neg : Bool
  mag : ℚ
deriving DecidableEq

/-- Round half to even (CPython's float-formatting rounding), applied to
an exact rational. -/
def rhe (q : ℚ) : Int :=
  let f := ⌊q⌋
  let r := q - f
  if r < 1 / 2 then f
  else if 1 / 2 < r then f + 1
  else if f % 2 = 0 then f else f + 1

/-- Left-pad a digit list with zeros to width `k`. -/
def padZeros (k : Nat) (l : List Char) : List Char :=
  List.replicate (k - l.length) '0' ++ l

/-- The digits of `{m:.kf}` for a nonnegative magnitude `m`: the value
rounded half-to-even at `k` decimals, integer part, dot, exactly `k`
fractional digits. -/
def fixMag (k : Nat) (m : ℚ) : List Char :=
  natDigitsL ((rhe (m * (10 : ℚ) ^ k)).toNat / 10 ^ k) ++
    '.' :: padZeros k (natDigitsL ((rhe (m * (10 : ℚ) ^ k)).toNat % 10 ^ k))

/-- Python `{x:.kf}`: minus sign exactly when the float is negative
(including negative zero), then the magnitude digits. -/
def fixFmt (k : Nat) (x : PyFloat) : String :=
  String.mk ((if x.neg then ['-'] else []) ++ fixMag k x.mag)

/-- Split a token at its (unique) decimal dot: the characters before the
first dot and those after it, provided the dot exists and is unique. -/
def splitDot (l : List Char) : Option (List Char × List Char) :=
  if (l.dropWhile (fun c => c != '.')).isEmpty then none
  else if (l.dropWhile (fun c => c != '.')).tail.all (fun c => c != '.') then
    some (l.takeWhile (fun c => c != '.'), (l.dropWhile (fun c => c != '.')).tail)
  else none

/-- Parse of an unsigned fixed-point token (integer digits, dot,
fractional digits), as pandas parses a float-column cell: exact in this
model. -/
def parseMag (l : List Char) : Option ℚ :=
  (splitDot l).bind fun ab =>
    (parseNatL ab.1).bind fun (ia : Nat) =>
      (parseNatL ab.2).map fun (fb : Nat) =>
        (ia : ℚ) + (fb : ℚ) / (10 : ℚ) ^ ab.2.length

/-- Parse of a signed fixed-point token into a `PyFloat`. -/
def parseFixedL (l : List Char) : Option PyFloat :=
  if l.head? = some '-' then (parseMag (l.drop 1)).map (fun m => (⟨true, m⟩ : PyFloat))
  else (parseMag l).map (fun m => (⟨false, m⟩ : PyFloat))

theorem rhe_intCast (z : Int) : rhe (z : ℚ) = z := by
  unfold rhe
  rw [Int.floor_intCast]
  rw [if_pos (by norm_num)]

theorem natDigitsAux_length :
    ∀ fuel n k, n < fuel → n < 10 ^ (k + 1) → (natDigitsAux fuel n).length ≤ k + 1 := by
  intro fuel
  induction fuel with
  | zero => omega
  | succ fuel ih =>
      intro n k hn hk
      unfold natDigitsAux
      by_cases h10 : n < 10
      · rw [if_pos h10]; simp
      · rw [if_neg h10]
        cases k with
        | zero => simp at hk; omega
        | succ k =>
            have h1 : n / 10 < fuel := by omega
            have h2 : n / 10 < 10 ^ (k + 1) := by
              have : 10 ^ (k + 1 + 1) = 10 ^ (k + 1) * 10 := by ring
              omega
            have := ih (n / 10) k h1 h2
            simp only [List.length_append, List.length_cons, List.length_nil]
            omega

theorem natDigitsL_length_le (M k : Nat) (hM : M < 10 ^ k) (hk : 0 < k) :
    (natDigitsL M).length ≤ k := by
  cases k with
  | zero => omega
  | succ k => exact natDigitsAux_length (M + 1) M k (by omega) hM

theorem foldl_val_zeros (j : Nat) :
    List.foldl (fun a c => 10 * a + digitVal c) 0 (List.replicate j '0') = 0 := by
  induction j with
  | zero => rfl
  | succ j ih => simpa [List.replicate_succ, digitVal] using ih

theorem digitsVal_padZeros (k : Nat) (l : List Char) :
    digitsVal (padZeros k l) = digitsVal l := by
  unfold padZeros digitsVal
  rw [List.foldl_append, foldl_val_zeros]

theorem padZeros_digits (k : Nat) (l : List Char) (hl : ∀ c ∈ l, c.isDigit = true) :
    ∀ c ∈ padZeros k l, c.isDigit = true := by
  intro c hc
  rcases List.mem_append.mp hc with h | h
  · rw [List.eq_of_mem_replicate h]; rfl
  · exact hl c h

theorem padZeros_length (k : Nat) (l : List Char) (hl : l.length ≤ k) :
    (padZeros k l).length = k := by
  simp [padZeros]
  omega

theorem isDigit_ne_dot {c : Char} (hc : c.isDigit = true) : (c != '.') = true := by
  rcases eq_or_ne c '.' with rfl | hne
  · simp [Char.isDigit] at hc
  · simpa using hne

theorem isDigit_ne_minus {c : Char} (hc : c.isDigit = true) : c ≠ '-' := by
  rintro rfl
  simp [Char.isDigit] at hc

theorem isDigit_ne_comma {c : Char} (hc : c.isDigit = true) : (c != ',') = true := by
  rcases eq_or_ne c ',' with rfl | hne
  · simp [Char.isDigit] at hc
  · simpa using hne

theorem takeWhile_dot (a b : List Char) (ha : ∀ c ∈ a, (c != '.') = true) :
    (a ++ '.' :: b).takeWhile (fun c => c != '.') = a := by
  induction a with
  | nil => simp [List.takeWhile]
  | cons c a ih =>
      have hc : (c != '.') = true := ha c (by simp)
      simp only [List.cons_append, List.takeWhile_cons, hc, if_true]
      rw [ih (fun x hx => ha x (by simp [hx]))]

theorem dropWhile_dot (a b : List Char) (ha : ∀ c ∈ a, (c != '.') = true) :
    (a ++ '.' :: b).dropWhile (fun c => c != '.') = '.' :: b := by
  induction a with
  | nil => simp [List.dropWhile]
  | cons c a ih =>
      have hc : (c != '.') = true := ha c (by simp)
      simp only [List.cons_append, List.dropWhile_cons, hc, if_true]
      exact ih (fun x hx => ha x (by simp [hx]))

theorem splitDot_spec (a b : List Char) (ha : ∀ c ∈ a, (c != '.') = true)
    (hb : ∀ c ∈ b, (c != '.') = true) :
    splitDot (a ++ '.' :: b) = some (a, b) := by
  unfold splitDot
  rw [dropWhile_dot a b ha]
  rw [if_neg (by simp)]
  rw [List.tail_cons]
  rw [if_pos (by simpa [List.all_eq_true] using hb)]
  rw [takeWhile_dot a b ha]

theorem parseNat_padZeros (k M : Nat) (hM : M < 10 ^ k) (hk : 0 < k) :
    parseNatL (padZeros k (natDigitsL M)) = some M := by
  have hlen := natDigitsL_length_le M k hM hk
  unfold parseNatL
  rw [if_neg (by
    rw [List.isEmpty_iff]
    intro h
    have := padZeros_length k (natDigitsL M) hlen
    rw [h] at this
    simp at this
    omega)]
  rw [if_pos (by
    rw [List.all_eq_true]
    exact fun c hc => padZeros_digits k _ (fun d hd => natDigitsAux_digits _ _ d hd) c hc)]
  rw [digitsVal_padZeros]
  rw [show digitsVal (natDigitsL M) = M from natDigitsAux_val (M + 1) M (by omega)]

theorem parseMag_fixMag (k : Nat) (hk : 0 < k) (m : ℚ) :
    parseMag (fixMag k m) =
      some (((rhe (m * (10 : ℚ) ^ k)).toNat : ℚ) / (10 : ℚ) ^ k) := by
  have hpow : 0 < 10 ^ k := Nat.pos_pow_of_pos k (by omega)
  set n := (rhe (m * (10 : ℚ) ^ k)).toNat with hn
  have hmod : n % 10 ^ k < 10 ^ k := Nat.mod_lt _ hpow
  have hlen := natDigitsL_length_le (n % 10 ^ k) k hmod hk
  have hdigInt : ∀ c ∈ natDigitsL (n / 10 ^ k), (c != '.') = true :=
    fun c hc => isDigit_ne_dot (natDigitsAux_digits _ _ c hc)
  have hdigFrac : ∀ c ∈ padZeros k (natDigitsL (n % 10 ^ k)), (c != '.') = true :=
    fun c hc =>
      isDigit_ne_dot (padZeros_digits _ _ (fun d hd => natDigitsAux_digits _ _ d hd) c hc)
  unfold parseMag fixMag
  rw [← hn]
  rw [splitDot_spec _ _ hdigInt hdigFrac]
  simp only [Option.some_bind]
  rw [parseNat_natDigits]
  simp only [Option.some_bind]
  rw [parseNat_padZeros k _ hmod hk]
  simp only [Option.map_some']
  rw [padZeros_length _ _ hlen]
  refine congrArg some ?_
  have hq : ((10 : ℚ)) ^ k ≠ 0 := by positivity
  field_simp
  have hdm := Nat.div_add_mod n (10 ^ k)
  have hcast : ((10 ^ k * (n / 10 ^ k) + n % 10 ^ k : Nat) : ℚ) = (n : ℚ) := by
    exact_mod_cast congrArg (Nat.cast : Nat → ℚ) hdm
  push_cast at hcast
  linarith

theorem fixMag_head_not_minus (k : Nat) (m : ℚ) :
    (fixMag k m).head? ≠ some '-' := by
  unfold fixMag
  rcases hl : natDigitsL ((rhe (m * (10 : ℚ) ^ k)).toNat / 10 ^ k) with _ | ⟨c, l⟩
  · exact absurd hl (natDigitsAux_ne_nil _ _ (by omega))
  · have hmem : c ∈ natDigitsL ((rhe (m * (10 : ℚ) ^ k)).toNat / 10 ^ k) := by
      rw [hl]; simp
    have hc : c.isDigit = true := natDigitsAux_digits _ _ c hmem
    simp only [List.cons_append, List.head?_cons]
    intro h
    exact isDigit_ne_minus hc (by injection h)

theorem rhe_render_idem (k : Nat) (n : Nat) :
    rhe (((n : ℚ) / (10 : ℚ) ^ k) * (10 : ℚ) ^ k) = (n : Int) := by
  rw [div_mul_cancel₀ _ (show ((10 : ℚ)) ^ k ≠ 0 by positivity)]
  have : ((n : ℚ)) = (((n : Int) : ℚ)) := by push_cast; rfl
  rw [this, rhe_intCast]

/-- Round-trip of Python fixed-point formatting through the (exact) CSV
parse: the parsed value re-renders to the identical token. -/
theorem fixFmt_roundtrip (k : Nat) (hk : 0 < k) (x : PyFloat) :
    parseFixedL (fixFmt k x).data =
        some (⟨x.neg, ((rhe (x.mag * (10 : ℚ) ^ k)).toNat : ℚ) / (10 : ℚ) ^ k⟩ : PyFloat) ∧
      fixFmt k (⟨x.neg, ((rhe (x.mag * (10 : ℚ) ^ k)).toNat : ℚ) / (10 : ℚ) ^ k⟩ : PyFloat) =
        fixFmt k x := by
  have hidem :
      (rhe ((((rhe (x.mag * (10 : ℚ) ^ k)).toNat : ℚ) / (10 : ℚ) ^ k) * (10 : ℚ) ^ k)).toNat =
        (rhe (x.mag * (10 : ℚ) ^ k)).toNat := by
    rw [rhe_render_idem]
    omega
  constructor
  · unfold parseFixedL fixFmt
    cases hxn : x.neg
    · simp only [Bool.false_eq_true, if_false, List.nil_append]
      rw [if_neg (fixMag_head_not_minus k x.mag)]
      rw [parseMag_fixMag k hk x.mag]
      rfl
    · simp only [if_true, List.singleton_append]
      rw [if_pos (show ('-' :: fixMag k x.mag).head? = some '-' from rfl)]
      rw [show List.drop 1 ('-' :: fixMag k x.mag) = fixMag k x.mag from rfl]
      rw [parseMag_fixMag k hk x.mag]
      rfl
  · unfold fixFmt
    refine congrArg String.mk (congrArg₂ _ rfl ?_)
    unfold fixMag
    rw [hidem]

/-! ### The log-line serializer and the verifier's reconstruction -/

/-- One sensor snapshot (`main.py` lines 167-184): ADC and IMU readings
are Python ints, the RF power levels and the GPS fix are floats. -/
structure Sample where
  ts : Int
  rf_b : PyFloat
  rf_f : PyFloat
  mic_a : Int
  mic_p : Int
  gsr_val : Int
  a_x : Int
  a_y : Int
  a_z : Int
  g_x : Int
  g_y : Int
  g_z : Int
  m_x : Int
  m_y : Int
  m_z : Int
  lat : PyFloat
  lon : PyFloat
  alt : PyFloat

/-- The 19 comma-separated fields of the f-string of `main.py` lines
187-189: rf power at 2 decimal places, lat/lon at 6, alt at 1, the ints
by default rendering, then the `prev_hash` field. -/
def serializeFields (s : Sample) (prev_hash : String) : List String :=
  [pyIntRepr s.ts, fixFmt 2 s.rf_b, fixFmt 2 s.rf_f, pyIntRepr s.mic_a,
   pyIntRepr s.mic_p, pyIntRepr s.gsr_val,
   pyIntRepr s.a_x, pyIntRepr s.a_y, pyIntRepr s.a_z,
   pyIntRepr s.g_x, pyIntRepr s.g_y, pyIntRepr s.g_z,
   pyIntRepr s.m_x, pyIntRepr s.m_y, pyIntRepr s.m_z,
   fixFmt 6 s.lat, fixFmt 6 s.lon, fixFmt 1 s.alt, prev_hash]

/-- `main.py` lines 187-189: the serialized log line (the f-string joins
the fields with commas; the trailing newline is added later). -/
def log_line (s : Sample) (prev_hash : String) : String :=
  String.intercalate "," (serializeFields s prev_hash)

/-- A row as pandas parses it back out of the CSV (`analysis.py` line
163): int64 columns for the int fields, float64 (here: sign-magnitude
exact rational) for the rf/GPS fields, the hash as a string. -/
structure Row where
  timestamp : Int
  rf_broad : PyFloat
  rf_filter : PyFloat
  mic_air : Int
  mic_piezo : Int
  gsr_raw : Int
  ax : Int
  ay : Int
  az : Int
  gx : Int
  gy : Int
  gz : Int
  mx : Int
  my : Int
  mz : Int
  lat : PyFloat
  lon : PyFloat
  alt : PyFloat
  prev_hash : String

def parseIntS (s : String) : Option Int := parseIntL s.data

def parseFixedS (s : String) : Option PyFloat := parseFixedL s.data

/-- Whether every typed cell of one 19-field data line parses (pandas
fails the read otherwise). -/
def rowParses (fs : List String) : Bool :=
  (parseIntS (fs.getD 0 "")).isSome && (parseFixedS (fs.getD 1 "")).isSome &&
  (parseFixedS (fs.getD 2 "")).isSome && (parseIntS (fs.getD 3 "")).isSome &&
  (parseIntS (fs.getD 4 "")).isSome && (parseIntS (fs.getD 5 "")).isSome &&
  (parseIntS (fs.getD 6 "")).isSome && (parseIntS (fs.getD 7 "")).isSome &&
  (parseIntS (fs.getD 8 "")).isSome && (parseIntS (fs.getD 9 "")).isSome &&
  (parseIntS (fs.getD 10 "")).isSome && (parseIntS (fs.getD 11 "")).isSome &&
  (parseIntS (fs.getD 12 "")).isSome && (parseIntS (fs.getD 13 "")).isSome &&
  (parseIntS (fs.getD 14 "")).isSome && (parseFixedS (fs.getD 15 "")).isSome &&
  (parseFixedS (fs.getD 16 "")).isSome && (parseFixedS (fs.getD 17 "")).isSome

/-- The typed row assembled from the 19 parsed cells (only used when
`rowParses` holds, so the defaults never surface). -/
def rowOf (fs : List String) : Row :=
  ⟨(parseIntS (fs.getD 0 "")).getD 0,
   (parseFixedS (fs.getD 1 "")).getD ⟨false, 0⟩,
   (parseFixedS (fs.getD 2 "")).getD ⟨false, 0⟩,
   (parseIntS (fs.getD 3 "")).getD 0,
   (parseIntS (fs.getD 4 "")).getD 0,
   (parseIntS (fs.getD 5 "")).getD 0,
   (parseIntS (fs.getD 6 "")).getD 0,
   (parseIntS (fs.getD 7 "")).getD 0,
   (parseIntS (fs.getD 8 "")).getD 0,
   (parseIntS (fs.getD 9 "")).getD 0,
   (parseIntS (fs.getD 10 "")).getD 0,
   (parseIntS (fs.getD 11 "")).getD 0,
   (parseIntS (fs.getD 12 "")).getD 0,
   (parseIntS (fs.getD 13 "")).getD 0,
   (parseIntS (fs.getD 14 "")).getD 0,
   (parseFixedS (fs.getD 15 "")).getD ⟨false, 0⟩,
   (parseFixedS (fs.getD 16 "")).getD ⟨false, 0⟩,
   (parseFixedS (fs.getD 17 "")).getD ⟨false, 0⟩,
   fs.getD 18 ""⟩

/-- The pandas parse of one data line's 19 comma-split fields into a
typed row; a wrong field count or any malformed cell fails the parse. -/
def parseRow (fs : List String) : Option Row :=
  if fs.length == 19 && rowParses fs then some (rowOf fs) else none

/-- `analysis.py` lines 32-36: the line the verifier reconstructs from
the parsed fields of the previous row, with the same conversions the
logger used. -/
def prev_line_string (r : Row) : String :=
  String.intercalate ","
    [pyIntRepr r.timestamp, fixFmt 2 r.rf_broad, fixFmt 2 r.rf_filter,
     pyIntRepr r.mic_air, pyIntRepr r.mic_piezo, pyIntRepr r.gsr_raw,
     pyIntRepr r.ax, pyIntRepr r.ay, pyIntRepr r.az,
     pyIntRepr r.gx, pyIntRepr r.gy, pyIntRepr r.gz,
     pyIntRepr r.mx, pyIntRepr r.my, pyIntRepr r.mz,
     fixFmt 6 r.lat, fixFmt 6 r.lon, fixFmt 1 r.alt, r.prev_hash]

theorem pyIntRepr_no_comma (n : Int) :
    ∀ c ∈ (pyIntRepr n).data, (c != ',') = true := by
  intro c hc
  unfold pyIntRepr at hc
  by_cases hn : n < 0
  · rw [if_pos hn] at hc
    rcases List.mem_cons.mp hc with rfl | h
    · rfl
    · exact isDigit_ne_comma (natDigitsAux_digits _ _ c h)
  · rw [if_neg hn] at hc
    exact isDigit_ne_comma (natDigitsAux_digits _ _ c hc)

theorem fixFmt_no_comma (k : Nat) (x : PyFloat) :
    ∀ c ∈ (fixFmt k x).data, (c != ',') = true := by
  intro c hc
  unfold fixFmt at hc
  rcases List.mem_append.mp hc with h | h
  · cases hxn : x.neg
    · rw [hxn] at h; simp at h
    · rw [hxn] at h
      simp at h
      rw [h]; rfl
  · unfold fixMag at h
    rcases List.mem_append.mp h with h2 | h2
    · exact isDigit_ne_comma (natDigitsAux_digits _ _ c h2)
    · rcases List.mem_cons.mp h2 with rfl | h3
      · rfl
      · exact isDigit_ne_comma
          (padZeros_digits _ _ (fun d hd => natDigitsAux_digits _ _ d hd) c h3)

/-- C10: Serializer/verifier agreement.  For every sensor snapshot and
`prev_hash` field (any comma-free string, in particular every 64-char
digest), the 19 fields the logger serializes parse back (pandas-style)
into a typed row, the line the verifier reconstructs from that row —
re-rendering rf fields at 2 decimal places, lat/lon at 6, alt at 1, and
the int fields by default rendering — is byte-for-byte the line the
logger serialized and hashed, and no field contains a comma, so the
comma-joined line splits back into exactly these fields. -/
theorem serializer_verifier_agreement (s : Sample) (ph : String)
    (hph : ∀ c ∈ ph.data, (c != ',') = true) :
    ∃ r, parseRow (serializeFields s ph) = some r ∧
      prev_line_string r = log_line s ph ∧
      ∀ f ∈ serializeFields s ph, ∀ c ∈ f.data, (c != ',') = true := by
  have hrb := fixFmt_roundtrip 2 (by omega) s.rf_b
  have hrf := fixFmt_roundtrip 2 (by omega) s.rf_f
  have hla := fixFmt_roundtrip 6 (by omega) s.lat
  have hlo := fixFmt_roundtrip 6 (by omega) s.lon
  have hal := fixFmt_roundtrip 1 (by omega) s.alt
  refine ⟨rowOf (serializeFields s ph), ?_, ?_, ?_⟩
  · unfold parseRow
    rw [if_pos ?hcond]
    case hcond =>
      refine (Bool.and_eq_true _ _).mpr ⟨rfl, ?_⟩
      unfold rowParses
      simp only [serializeFields, List.getD, List.get?, Option.getD_some,
        parseIntS, parseFixedS, parseInt_pyIntRepr, hrb.1, hrf.1,
        hla.1, hlo.1, hal.1, Option.isSome_some, Bool.and_self]
  · unfold prev_line_string log_line
    refine congrArg (String.intercalate ",") ?_
    simp only [rowOf, serializeFields, List.getD, List.get?, Option.getD_some,
      parseIntS, parseFixedS, parseInt_pyIntRepr, hrb.1, hrf.1,
      hla.1, hlo.1, hal.1]
    simp only [hrb.2, hrf.2, hla.2, hlo.2, hal.2]
  · intro f hf
    simp only [serializeFields, List.mem_cons, List.not_mem_nil, or_false] at hf
    rcases hf with rfl|rfl|rfl|rfl|rfl|rfl|rfl|rfl|rfl|rfl|rfl|rfl|rfl|rfl|rfl|rfl|rfl|rfl|rfl
    case _ => exact pyIntRepr_no_comma _
    case _ => exact fixFmt_no_comma _ _
    case _ => exact fixFmt_no_comma _ _
    case _ => exact pyIntRepr_no_comma _
    case _ => exact pyIntRepr_no_comma _
    case _ => exact pyIntRepr_no_comma _
    case _ => exact pyIntRepr_no_comma _
    case _ => exact pyIntRepr_no_comma _
    case _ => exact pyIntRepr_no_comma _
    case _ => exact pyIntRepr_no_comma _
    case _ => exact pyIntRepr_no_comma _
    case _ => exact pyIntRepr_no_comma _
    case _ => exact pyIntRepr_no_comma _
    case _ => exact pyIntRepr_no_comma _
    case _ => exact pyIntRepr_no_comma _
    case _ => exact fixFmt_no_comma _ _
    case _ => exact fixFmt_no_comma _ _
    case _ => exact fixFmt_no_comma _ _
    case _ => exact hph

/-- The concrete snapshot used to witness C10. -/
def c10sample : Sample :=
  ⟨7, ⟨true, 45.67⟩, ⟨false, 50.5⟩, 2048, 1800, 900, 1, -2, 3, 4, 5, 6, 7, 8, 9,
   ⟨false, 0⟩, ⟨false, 0⟩, ⟨false, 0⟩⟩

theorem serializer_verifier_agreement_witness :
    ∃ r, parseRow (serializeFields c10sample GENESIS) = some r ∧
      prev_line_string r = log_line c10sample GENESIS ∧
      ∀ f ∈ serializeFields c10sample GENESIS, ∀ c ∈ f.data, (c != ',') = true :=
  serializer_verifier_agreement c10sample GENESIS (by decide)
